import Mathlib

/-!
Shallow embedding of the `tame` repository's native discovery code
(`src/_walk/main.cpp`: the `_walk` and `_tame_walk` CPython extension
modules) together with a spec-modelled fragment of the metadata-graph
engine (index building and by-type/name link resolution), and theorems
settling the spec's claims about them.
-/

namespace Tame

/-! ## Filesystem model

`std::filesystem::recursive_directory_iterator` walks a directory tree in
depth-first preorder: every directory entry (file or directory) below the
root is yielded, a directory before its contents.  A directory that cannot
be opened makes the iterator throw `filesystem_error`; we model this with a
`readable` flag on each directory.  Entry names never contain a path
separator, so a path's `filename()` component is exactly the entry's name.
-/

inductive Entry where
  | file (name : String)
  | dir (name : String) (readable : Bool) (children : List Entry)
deriving Repr

/-- One yielded directory entry: its full path (`path.string()` in the
C++ code), its filename component, and whether it is a directory. -/
structure DirEnt where
  path : String
  name : String
  isDir : Bool
deriving Repr, DecidableEq

/-- Index of the last `.` in a list of characters, if any. -/
def lastDot : List Char → Option Nat
  | [] => none
  | c :: rest =>
    match lastDot rest with
    | some i => some (i + 1)
    | none => if c = '.' then some 0 else none

/-- `std::filesystem::path::extension().string()` on a filename component:
the suffix starting at the last period, except that `.` , `..` and a name
whose only period is its first character (a dotfile) have no extension. -/
def cppExtension (f : String) : String :=
  if f = "." ∨ f = ".." then ""
  else
    match lastDot f.toList with
    | none => ""
    | some 0 => ""
    | some i => String.mk (f.toList.drop i)

/-! ## Python-level error and argument model -/

/-- The CPython exception kind carried by `PyErr_SetString`.  The two walk
modules only ever raise `TypeError` (bad extension argument) and
`RuntimeError` (a caught C++ exception); `ioError` stands for Python's
`IOError`/`OSError`, which the code never raises. -/
inductive PyErrKind where
  | typeError
  | runtimeError
  | ioError
deriving Repr, DecidableEq

structure PyError where
  kind : PyErrKind
  msg : String
deriving Repr, DecidableEq

/-- A Python object as far as `walk`'s second argument is concerned:
a `str`, a `list`, or anything else (`other`).  Lean strings are valid
Unicode, so `PyUnicode_AsUTF8` never fails on them. -/
inductive PyObj where
  | str (s : String)
  | list (elems : List PyObj)
  | other
deriving Repr

/-- `filesystem_error::what()` for a directory the iterator cannot open:
libstdc++ embeds the failing path in the message (exact wording
abstracted; what matters is that the unreadable path is named). -/
def fsErrorWhat (p : String) : String :=
  "filesystem error: directory iterator cannot open directory [" ++ p ++ "]"

/-- The `RuntimeError` that `_tame_walk`'s catch block raises for an
unopenable directory at path `p`. -/
def mkFsError (p : String) : PyError :=
  ⟨PyErrKind.runtimeError, fsErrorWhat p⟩

/-! ## Traversal (`recursive_directory_iterator` over the model) -/

mutual

/-- Contribution of one directory entry to the iterator's depth-first
preorder listing: the entry itself, then (for a directory) its subtree;
opening an unreadable directory throws `filesystem_error`, whose
`what()` names the path.  On an exception the C++ loop aborts and the
partially built Python list is discarded, so collecting the full listing
before filtering is observationally the same as the code's interleaved
loop. -/
def traverseEntry (pre : String) : Entry → Except PyError (List DirEnt)
  | Entry.file n => .ok [⟨pre ++ "/" ++ n, n, false⟩]
  | Entry.dir n r cs =>
    if r then do
      let sub ← traverseList (pre ++ "/" ++ n) cs
      .ok (⟨pre ++ "/" ++ n, n, true⟩ :: sub)
    else
      .error (mkFsError (pre ++ "/" ++ n))

/-- Depth-first preorder listing of all entries of a directory's child
list, as `recursive_directory_iterator` yields them. -/
def traverseList (pre : String) : List Entry → Except PyError (List DirEnt)
  | [] => .ok []
  | e :: rest => do
    let head ← traverseEntry pre e
    let tail ← traverseList pre rest
    .ok (head ++ tail)

end

mutual

/-- Path of the first unopenable directory within one entry, in
traversal order, if any. -/
def firstUnreadableEntry (pre : String) : Entry → Option String
  | Entry.file _ => none
  | Entry.dir n r cs =>
    if r then firstUnreadableList (pre ++ "/" ++ n) cs
    else some (pre ++ "/" ++ n)

/-- Path of the first unopenable directory below a child list, in
traversal order, if any. -/
def firstUnreadableList (pre : String) : List Entry → Option String
  | [] => none
  | e :: rest =>
    match firstUnreadableEntry pre e with
    | some p => some p
    | none => firstUnreadableList pre rest

end

/-- Constructing `recursive_directory_iterator(walk_start)` on the root:
throws if the root is not a directory or cannot be opened, otherwise
yields the listing of its children. -/
def rootTraverse (start : String) : Entry → Except PyError (List DirEnt)
  | Entry.file _ =>
    .error ⟨PyErrKind.runtimeError,
      "filesystem error: directory iterator cannot open directory:"
        ++ " Not a directory [" ++ start ++ "]"⟩
  | Entry.dir _ false _ => .error (mkFsError start)
  | Entry.dir _ true cs => traverseList start cs

/-! ## The two walk functions -/

/-- Extension-argument parsing of `_tame_walk.walk` (main.cpp lines
65–105): a single `str` yields a one-element vector; a `list` yields its
elements provided every one is a `str`, otherwise `TypeError`; anything
else is `TypeError`. -/
def parseExtElem : PyObj → Except PyError String
  | PyObj.str s => .ok s
  | _ => .error ⟨PyErrKind.typeError,
      "Extensions must be based as a list of strings!"⟩

def parseExtensions : PyObj → Except PyError (List String)
  | PyObj.str s => .ok [s]
  | PyObj.list elems => elems.mapM parseExtElem
  | PyObj.other => .error ⟨PyErrKind.typeError,
      "Extensions must be specified as a single string or a list of strings!"⟩

/-- The inner match of `_tame_walk.walk`: `valid |= (path.extension().string()
== extension)` folded over the extension vector. -/
def matchesAny (extensions : List String) (n : String) : Bool :=
  extensions.foldl (fun valid e => valid || (cppExtension n == e)) false

/-- `_tame_walk.walk` (main.cpp lines 56–146): parse the extension
argument, traverse recursively from `walk_start`, and append the path of
every entry whose extension matches; any traversal exception becomes a
`RuntimeError` and no list is returned. -/
def walkTame (walk_start : String) (input_args : PyObj) (root : Entry) :
    Except PyError (List String) := do
  let extensions ← parseExtensions input_args
  let ents ← rootTraverse walk_start root
  .ok (ents.foldl
    (fun list d => if matchesAny extensions d.name then list ++ [d.path] else list)
    [])

/-- Legacy `_walk.walk` (main.cpp lines 7–28): hard-coded `".yaml"`
target, no try/catch — a C++ exception escapes the extension boundary
(modelled as `crash`) instead of becoming a Python error. -/
inductive LegacyResult where
  | ok (paths : List String)
  | crash (what : String)
deriving Repr, DecidableEq

def walkLegacy (filename : String) (root : Entry) : LegacyResult :=
  match rootTraverse filename root with
  | .error e => LegacyResult.crash e.msg
  | .ok ents =>
    LegacyResult.ok (ents.foldl
      (fun list d => if cppExtension d.name == ".yaml" then list ++ [d.path] else list)
      [])

/-- The spec's characterisation of discovery: the paths of exactly those
traversed entries whose filename extension equals some element of the
extension set, in traversal order. -/
def specDiscover (extensions : List String) (ents : List DirEnt) : List String :=
  (ents.filter fun d => extensions.contains (cppExtension d.name)).map DirEnt.path

/-! ## Spec-modelled metadata-graph engine fragment

The engine (Document Loader, Index Builder, Link Resolver, …) is described
by the repository's documentation but its code is not under `src/`; the
definitions below are modelled from the spec, restricted to what the index
uniqueness and by-type/name resolution claims need. -/

/-- Modelled from the spec: a loaded `MetadataDocument`, identified by the
canonical path of its source file, with its reserved keys.  `files`,
`parentLinks` and `extra` play no role in the indexing/resolution claims
and are omitted. -/
structure MetadataDocument where
  path : String
  type : String
  name : Option String
  uid : Option String
deriving Repr, DecidableEq

/-- Modelled from the spec: the engine's error kinds used by index
building and by-type/name resolution.  `duplicateUid` names both
conflicting paths; `ambiguousLink` lists all candidates. -/
inductive EngineError where
  | duplicateUid (firstPath secondPath : String)
  | unresolvedLink
  | ambiguousLink (candidates : List String)
deriving Repr, DecidableEq

/-- Modelled from the spec: the derived `Index`.  `byTypeUid` maps
`(type, uid)` to a `DocumentID` (the document's canonical path) with at
most one entry per key; `byTypeName` is a legitimately multi-valued map,
kept as a flat association list in insertion order; `byPath` maps a
canonical path to its `DocumentID`. -/
structure Index where
  byTypeUid : List ((String × String) × String)
  byTypeName : List ((String × String) × String)
  byPath : List (String × String)
deriving Repr, DecidableEq

def emptyIndex : Index := ⟨[], [], []⟩

/-- `byTypeUid[(t,u)]`. -/
def lookupTypeUid (idx : Index) (t u : String) : Option String :=
  (idx.byTypeUid.find? fun e => e.1 = (t, u)).map Prod.snd

/-- `byTypeName[(t,n)]`: all candidate `DocumentID`s, in insertion order. -/
def lookupTypeName (idx : Index) (t n : String) : List String :=
  (idx.byTypeName.filter fun e => e.1 = (t, n)).map Prod.snd

/-- Modelled from the spec: Index Builder insertion.  Inserts into
`byPath`, `byTypeName` (if `name` present), and — if `uid` present —
`byTypeUid`; a second document with an already-present `(type, uid)` is a
hard error at build time, `DuplicateUidError` naming both conflicting
paths. -/
def insertDoc (idx : Index) (d : MetadataDocument) : Except EngineError Index :=
  match d.uid with
  | some u =>
    match lookupTypeUid idx d.type u with
    | some existing => .error (EngineError.duplicateUid existing d.path)
    | none =>
      .ok { byTypeUid := idx.byTypeUid ++ [((d.type, u), d.path)]
            byTypeName :=
              match d.name with
              | some n => idx.byTypeName ++ [((d.type, n), d.path)]
              | none => idx.byTypeName
            byPath := idx.byPath ++ [(d.path, d.path)] }
  | none =>
    .ok { byTypeUid := idx.byTypeUid
          byTypeName :=
            match d.name with
            | some n => idx.byTypeName ++ [((d.type, n), d.path)]
            | none => idx.byTypeName
          byPath := idx.byPath ++ [(d.path, d.path)] }

/-- Modelled from the spec: building the index from a stream of loaded
documents, stopping with a hard error on the first duplicate `(type,uid)`. -/
def buildIndexFrom (idx : Index) (docs : List MetadataDocument) :
    Except EngineError Index :=
  docs.foldlM insertDoc idx

def buildIndex (docs : List MetadataDocument) : Except EngineError Index :=
  buildIndexFrom emptyIndex docs

/-- Modelled from the spec: `ByTypeName(t,n)` resolution against the
finished index: empty candidate set → `UnresolvedLinkError`; more than one
→ `AmbiguousLinkError` listing all candidates; exactly one → success. -/
def resolveByTypeName (idx : Index) (t n : String) : Except EngineError String :=
  match lookupTypeName idx t n with
  | [] => .error EngineError.unresolvedLink
  | [d] => .ok d
  | ds => .error (EngineError.ambiguousLink ds)

/-! ## Helper lemmas about the walk loop -/

theorem foldl_or_any {α : Type} (p : α → Bool) (l : List α) (b : Bool) :
    l.foldl (fun v e => v || p e) b = (b || l.any p) := by
  induction l generalizing b with
  | nil => simp
  | cons a as ih => simp [ih, Bool.or_assoc]

theorem matchesAny_eq_contains (exts : List String) (n : String) :
    matchesAny exts n = exts.contains (cppExtension n) := by
  rw [matchesAny, foldl_or_any, Bool.false_or, List.contains_eq_any_beq]

theorem foldl_append_filter (q : DirEnt → Bool) (ents : List DirEnt)
    (acc : List String) :
    ents.foldl (fun list d => if q d then list ++ [d.path] else list) acc
      = acc ++ (ents.filter q).map DirEnt.path := by
  induction ents generalizing acc with
  | nil => simp
  | cons d ds ih =>
    by_cases h : q d <;> simp [h, ih]

theorem walkTame_ok (start : String) (args : PyObj) (root : Entry)
    (exts : List String) (ents : List DirEnt)
    (hargs : parseExtensions args = .ok exts)
    (hents : rootTraverse start root = .ok ents) :
    walkTame start args root = .ok (specDiscover exts ents) := by
  rw [walkTame, hargs]
  show (rootTraverse start root).bind _ = _
  rw [hents]
  show Except.ok _ = _
  rw [specDiscover]
  congr 1
  rw [foldl_append_filter, List.nil_append]
  congr 1
  exact List.filter_congr fun d _ => matchesAny_eq_contains exts d.name

theorem walkTame_parse_error (start : String) (args : PyObj) (root : Entry)
    (e : PyError) (hargs : parseExtensions args = .error e) :
    walkTame start args root = .error e := by
  rw [walkTame, hargs]
  rfl

theorem walkTame_traverse_error (start : String) (args : PyObj) (root : Entry)
    (exts : List String) (e : PyError)
    (hargs : parseExtensions args = .ok exts)
    (hents : rootTraverse start root = .error e) :
    walkTame start args root = .error e := by
  rw [walkTame, hargs]
  show (rootTraverse start root).bind _ = _
  rw [hents]
  rfl

/-- Traversal of a child list succeeds exactly when no unreadable
directory is met, and otherwise fails with the `RuntimeError` naming the
first unreadable path in traversal order. -/
theorem traverseList_firstUnreadable (pre : String) (es : List Entry) :
    (firstUnreadableList pre es = none → ∃ l, traverseList pre es = Except.ok l) ∧
    (∀ p, firstUnreadableList pre es = some p →
      traverseList pre es = Except.error (mkFsError p)) := by
  refine traverseList.induct
    (fun pre e =>
      (firstUnreadableEntry pre e = none → ∃ l, traverseEntry pre e = Except.ok l) ∧
      (∀ p, firstUnreadableEntry pre e = some p →
        traverseEntry pre e = Except.error (mkFsError p)))
    (fun pre es =>
      (firstUnreadableList pre es = none → ∃ l, traverseList pre es = Except.ok l) ∧
      (∀ p, firstUnreadableList pre es = some p →
        traverseList pre es = Except.error (mkFsError p)))
    ?_ ?_ ?_ ?_ ?_ pre es
  · intro pre n
    exact ⟨fun _ => ⟨[⟨pre ++ "/" ++ n, n, false⟩], rfl⟩, fun p h => nomatch h⟩
  · intro pre n cs ih
    constructor
    · intro h
      obtain ⟨l, hl⟩ := ih.1 h
      refine ⟨⟨pre ++ "/" ++ n, n, true⟩ :: l, ?_⟩
      show (traverseList (pre ++ "/" ++ n) cs).bind _ = _
      rw [hl]
      rfl
    · intro p h
      have hsub := ih.2 p h
      show (traverseList (pre ++ "/" ++ n) cs).bind _ = _
      rw [hsub]
      rfl
  · intro pre n r cs hr
    cases r with
    | true => exact absurd rfl hr
    | false =>
      exact ⟨fun h => (nomatch h), fun p h => by
        have : p = pre ++ "/" ++ n := by
          have := Option.some_inj.mp h
          exact this.symm
        rw [this]
        rfl⟩
  · intro pre
    exact ⟨fun _ => ⟨[], rfl⟩, fun p h => nomatch h⟩
  · intro pre e rest ihE ihR
    constructor
    · intro h
      rw [firstUnreadableList] at h
      cases hfe : firstUnreadableEntry pre e with
      | some q => rw [hfe] at h; exact absurd h (by simp)
      | none =>
        rw [hfe] at h
        obtain ⟨le', hle⟩ := ihE.1 hfe
        obtain ⟨lr, hlr⟩ := ihR.1 h
        refine ⟨le' ++ lr, ?_⟩
        show (traverseEntry pre e).bind _ = _
        rw [hle]
        show (traverseList pre rest).bind _ = _
        rw [hlr]
        rfl
    · intro p h
      rw [firstUnreadableList] at h
      cases hfe : firstUnreadableEntry pre e with
      | some q =>
        rw [hfe] at h
        have hq : q = p := by simpa using h
        subst hq
        have := ihE.2 q hfe
        show (traverseEntry pre e).bind _ = _
        rw [this]
        rfl
      | none =>
        rw [hfe] at h
        obtain ⟨le', hle⟩ := ihE.1 hfe
        have := ihR.2 p h
        show (traverseEntry pre e).bind _ = _
        rw [hle]
        show (traverseList pre rest).bind _ = _
        rw [this]
        rfl

/-- First unopenable path of a whole walk rooted at `start`, if any:
a non-directory or unreadable root is itself unopenable. -/
def rootFirstUnreadable (start : String) : Entry → Option String
  | Entry.file _ => some start
  | Entry.dir _ false _ => some start
  | Entry.dir _ true cs => firstUnreadableList start cs

theorem rootTraverse_ok_of_none (start : String) (root : Entry)
    (h : rootFirstUnreadable start root = none) :
    ∃ l, rootTraverse start root = Except.ok l := by
  cases root with
  | file n => exact absurd h (by simp [rootFirstUnreadable])
  | dir n r cs =>
    cases r with
    | false => exact absurd h (by simp [rootFirstUnreadable])
    | true => exact (traverseList_firstUnreadable start cs).1 h

theorem rootTraverse_error_kind (start : String) (root : Entry) (e : PyError)
    (h : rootTraverse start root = Except.error e) :
    e.kind = PyErrKind.runtimeError := by
  cases root with
  | file n =>
    have h' : Except.error (α := List DirEnt)
        (⟨PyErrKind.runtimeError,
          "filesystem error: directory iterator cannot open directory:"
            ++ " Not a directory [" ++ start ++ "]"⟩ : PyError) = Except.error e := h
    have he := (Except.error.injEq _ _).mp h'
    rw [← he]
  | dir n r cs =>
    cases r with
    | false =>
      have : Except.error (α := List DirEnt) (mkFsError start) = Except.error e := h
      have he : mkFsError start = e := (Except.error.injEq _ _).mp this
      rw [← he]
      rfl
    | true =>
      have h' : traverseList start cs = Except.error e := h
      cases hfu : firstUnreadableList start cs with
      | none =>
        obtain ⟨l, hl⟩ := (traverseList_firstUnreadable start cs).1 hfu
        rw [hl] at h'
        exact absurd h' (by simp)
      | some p =>
        have := (traverseList_firstUnreadable start cs).2 p hfu
        rw [this] at h'
        have he : mkFsError p = e := (Except.error.injEq _ _).mp h'
        rw [← he]
        rfl

theorem rootTraverse_error_of_some (start : String) (root : Entry) (p : String)
    (h : rootFirstUnreadable start root = some p) (hd : ∃ n r cs, root = Entry.dir n r cs) :
    rootTraverse start root = Except.error (mkFsError p) := by
  obtain ⟨n, r, cs, rfl⟩ := hd
  cases r with
  | false =>
    have hp : p = start := by
      have := Option.some_inj.mp h.symm
      exact this.symm ▸ rfl
    rw [show p = start from by
      have := Option.some_inj.mp h
      exact this.symm]
    rfl
  | true =>
    exact (traverseList_firstUnreadable start cs).2 p h

/-! ## Extension-argument validity -/

/-- The shapes of the second argument that `_tame_walk.walk` accepts:
a string, or a list whose every element is a string. -/
def validExtArg : PyObj → Bool
  | PyObj.str _ => true
  | PyObj.list elems =>
    elems.all fun e =>
      match e with
      | PyObj.str _ => true
      | _ => false
  | PyObj.other => false

theorem parseExtensions_list_error (elems : List PyObj)
    (h : (elems.all fun e =>
      match e with
      | PyObj.str _ => true
      | _ => false) = false) :
    parseExtensions (PyObj.list elems) =
      Except.error ⟨PyErrKind.typeError,
        "Extensions must be based as a list of strings!"⟩ := by
  induction elems with
  | nil => exact absurd h (by simp)
  | cons x rest ih =>
    cases x with
    | str s =>
      have hr : (rest.all fun e =>
          match e with
          | PyObj.str _ => true
          | _ => false) = false := by
        simpa using h
      have hrest : (rest.mapM parseExtElem) =
          Except.error ⟨PyErrKind.typeError,
            "Extensions must be based as a list of strings!"⟩ := ih hr
      show ((PyObj.str s :: rest).mapM parseExtElem) = _
      rw [List.mapM_cons]
      show (rest.mapM parseExtElem).bind _ = _
      rw [hrest]
      rfl
    | list xs =>
      show ((PyObj.list xs :: rest).mapM parseExtElem) = _
      rw [List.mapM_cons]
      rfl
    | other =>
      show ((PyObj.other :: rest).mapM parseExtElem) = _
      rw [List.mapM_cons]
      rfl

theorem parseExtensions_invalid (args : PyObj) (h : validExtArg args = false) :
    ∃ m, parseExtensions args = Except.error ⟨PyErrKind.typeError, m⟩ := by
  cases args with
  | str s => exact absurd h (by simp [validExtArg])
  | list elems =>
    exact ⟨"Extensions must be based as a list of strings!",
      parseExtensions_list_error elems (by simpa [validExtArg] using h)⟩
  | other =>
    exact ⟨"Extensions must be specified as a single string or a list of strings!", rfl⟩

/-! ## Concrete trees used by witnesses and counterexamples -/

/-- A readable tree mixing matching and non-matching files. -/
def sampleTree : Entry :=
  Entry.dir "r" true
    [Entry.file "a.yaml",
     Entry.dir "sub" true [Entry.file "b.txt", Entry.file "c.yaml"],
     Entry.file "d"]

/-- The listing `recursive_directory_iterator` yields for `sampleTree`. -/
def sampleEnts : List DirEnt :=
  [⟨"root/a.yaml", "a.yaml", false⟩,
   ⟨"root/sub", "sub", true⟩,
   ⟨"root/sub/b.txt", "b.txt", false⟩,
   ⟨"root/sub/c.yaml", "c.yaml", false⟩,
   ⟨"root/d", "d", false⟩]

/-- A tree whose matching file is followed by an unreadable directory and
another matching file. -/
def unreadableTree : Entry :=
  Entry.dir "r" true
    [Entry.file "a.yaml", Entry.dir "bad" false [], Entry.file "z.yaml"]

/-- A tree containing a directory whose own name carries the `.yaml`
extension. -/
def dirExtTree : Entry :=
  Entry.dir "r" true
    [Entry.dir "sub.yaml" true [Entry.file "inner.txt"], Entry.file "f.yaml"]

def dirExtEnts : List DirEnt :=
  [⟨"root/sub.yaml", "sub.yaml", true⟩,
   ⟨"root/sub.yaml/inner.txt", "inner.txt", false⟩,
   ⟨"root/f.yaml", "f.yaml", false⟩]

end Tame

namespace Tame

/-! ## Claims about the discovery code -/

/-- C1: for every directory tree rooted at the given start path and every
extension set passed as a single string or a list of strings, `walk`
returns exactly those traversed entries whose filename extension equals
some element of the set — none omitted, none extra, in traversal order. -/
theorem walk_discovers_exactly_matching (start : String) (args : PyObj)
    (root : Entry) (exts : List String) (ents : List DirEnt)
    (hargs : parseExtensions args = Except.ok exts)
    (hents : rootTraverse start root = Except.ok ents) :
    walkTame start args root = Except.ok (specDiscover exts ents) :=
  walkTame_ok start args root exts ents hargs hents

/-- Witness for C1 on a concrete tree and a list-of-strings argument. -/
theorem walk_discovers_exactly_matching_witness :
    parseExtensions (PyObj.list [PyObj.str ".yaml", PyObj.str ".txt"]) =
      Except.ok [".yaml", ".txt"] ∧
    rootTraverse "root" sampleTree = Except.ok sampleEnts ∧
    walkTame "root" (PyObj.list [PyObj.str ".yaml", PyObj.str ".txt"]) sampleTree =
      Except.ok ["root/a.yaml", "root/sub/b.txt", "root/sub/c.yaml"] := by
  refine ⟨rfl, rfl, ?_⟩
  have h := walk_discovers_exactly_matching "root"
    (PyObj.list [PyObj.str ".yaml", PyObj.str ".txt"]) sampleTree
    [".yaml", ".txt"] sampleEnts rfl rfl
  exact h.trans rfl

/-- C2 counterexample: on an unreadable root the code raises
`RuntimeError`, not Python's `IOError`/`OSError`. -/
theorem walk_unreadable_root_not_ioerror :
    walkTame "root" (PyObj.str ".yaml") (Entry.dir "r" false []) =
      Except.error (mkFsError "root") ∧
    (mkFsError "root").kind = PyErrKind.runtimeError ∧
    PyErrKind.runtimeError ≠ PyErrKind.ioError :=
  ⟨rfl, rfl, by decide⟩

/-- C2 (amended): when the root given to `walk` is unreadable, `walk`
fails with a `RuntimeError`; every discovery failure is surfaced as the
`RuntimeError` kind (never `IOError`). -/
theorem walk_discovery_failure_runtime_error (start : String) (args : PyObj)
    (exts : List String) (hargs : parseExtensions args = Except.ok exts) :
    (∀ nm cs, walkTame start args (Entry.dir nm false cs) =
      Except.error (mkFsError start)) ∧
    (∀ root e, walkTame start args root = Except.error e →
      e.kind = PyErrKind.runtimeError) := by
  constructor
  · intro nm cs
    exact walkTame_traverse_error start args (Entry.dir nm false cs) exts
      (mkFsError start) hargs rfl
  · intro root e he
    cases hrt : rootTraverse start root with
    | ok ents =>
      have hok := walkTame_ok start args root exts ents hargs hrt
      rw [hok] at he
      exact absurd he (by simp)
    | error e' =>
      have herr := walkTame_traverse_error start args root exts e' hargs hrt
      rw [herr] at he
      have he' : e' = e := (Except.error.injEq _ _).mp he
      rw [← he']
      exact rootTraverse_error_kind start root e' hrt

/-- Witness for the amended C2. -/
theorem walk_discovery_failure_runtime_error_witness :
    parseExtensions (PyObj.str ".yaml") = Except.ok [".yaml"] ∧
    walkTame "start" (PyObj.str ".yaml") (Entry.dir "r" false [Entry.file "x.yaml"]) =
      Except.error (mkFsError "start") :=
  ⟨rfl, (walk_discovery_failure_runtime_error "start" (PyObj.str ".yaml")
    [".yaml"] rfl).1 "r" [Entry.file "x.yaml"]⟩

/-- C3 counterexample: with a matching file before an unreadable
directory and another matching file after it, the whole walk is
abandoned — the caught exception yields an error and no path list at all,
instead of the rest of the walk's results. -/
theorem walk_no_results_on_unreadable :
    walkTame "root" (PyObj.str ".yaml") unreadableTree =
      Except.error (mkFsError "root/bad") ∧
    walkTame "root" (PyObj.str ".yaml") unreadableTree ≠
      Except.ok ["root/a.yaml", "root/z.yaml"] := by
  refine ⟨rfl, fun h => ?_⟩
  have h' : Except.error (α := List String) (mkFsError "root/bad") =
      Except.ok ["root/a.yaml", "root/z.yaml"] := by
    rw [← h]
    rfl
  exact Except.noConfusion h'

/-- C3 (amended): when traversal meets an inaccessible directory, `walk`
returns an error value (a Python `RuntimeError` whose message names the
first unreadable path) rather than propagating the C++ exception, but the
whole walk is abandoned: no path list — not even a partial one — is
produced. -/
theorem walk_unreadable_aborts_walk (start : String) (args : PyObj)
    (exts : List String) (nm : String) (cs : List Entry) (p : String)
    (hargs : parseExtensions args = Except.ok exts)
    (hfu : firstUnreadableList start cs = some p) :
    walkTame start args (Entry.dir nm true cs) = Except.error (mkFsError p) ∧
    ∀ l, walkTame start args (Entry.dir nm true cs) ≠ Except.ok l := by
  have htr : rootTraverse start (Entry.dir nm true cs) =
      Except.error (mkFsError p) :=
    (traverseList_firstUnreadable start cs).2 p hfu
  have hw := walkTame_traverse_error start args (Entry.dir nm true cs) exts
    (mkFsError p) hargs htr
  refine ⟨hw, fun l h => ?_⟩
  rw [hw] at h
  exact Except.noConfusion h

/-- Witness for the amended C3. -/
theorem walk_unreadable_aborts_walk_witness :
    parseExtensions (PyObj.str ".yaml") = Except.ok [".yaml"] ∧
    firstUnreadableList "root"
      [Entry.file "a.yaml", Entry.dir "bad" false [], Entry.file "z.yaml"] =
      some "root/bad" ∧
    walkTame "root" (PyObj.str ".yaml")
      (Entry.dir "r" true
        [Entry.file "a.yaml", Entry.dir "bad" false [], Entry.file "z.yaml"]) =
      Except.error (mkFsError "root/bad") :=
  ⟨rfl, rfl, (walk_unreadable_aborts_walk "root" (PyObj.str ".yaml") [".yaml"]
    "r" [Entry.file "a.yaml", Entry.dir "bad" false [], Entry.file "z.yaml"]
    "root/bad" rfl rfl).1⟩

/-- C4: an extension argument that is neither a string nor a list of
strings (including a list with a non-string element) makes `walk` fail
with a `TypeError` and return no path list. -/
theorem walk_rejects_invalid_extension_argument (start : String) (args : PyObj)
    (root : Entry) (h : validExtArg args = false) :
    ∃ m, walkTame start args root = Except.error ⟨PyErrKind.typeError, m⟩ := by
  obtain ⟨m, hm⟩ := parseExtensions_invalid args h
  exact ⟨m, walkTame_parse_error start args root ⟨PyErrKind.typeError, m⟩ hm⟩

/-- Witness for C4: a list containing a non-string element. -/
theorem walk_rejects_invalid_extension_argument_witness :
    validExtArg (PyObj.list [PyObj.str ".yaml", PyObj.other]) = false ∧
    ∃ m, walkTame "root" (PyObj.list [PyObj.str ".yaml", PyObj.other])
      (Entry.dir "r" true []) = Except.error ⟨PyErrKind.typeError, m⟩ :=
  ⟨rfl, walk_rejects_invalid_extension_argument "root"
    (PyObj.list [PyObj.str ".yaml", PyObj.other]) (Entry.dir "r" true []) rfl⟩

/-- C7: on every directory tree, the legacy `_walk.walk` returns a path
sequence exactly when `_tame_walk.walk` with the single extension string
`".yaml"` does, and then the two sequences are identical (same paths,
same order). -/
theorem legacy_walk_matches_tame_walk_yaml (start : String) (root : Entry)
    (ps : List String) :
    walkLegacy start root = LegacyResult.ok ps ↔
    walkTame start (PyObj.str ".yaml") root = Except.ok ps := by
  cases hrt : rootTraverse start root with
  | error e =>
    have hL : walkLegacy start root = LegacyResult.crash e.msg := by
      rw [walkLegacy, hrt]
    have hT := walkTame_traverse_error start (PyObj.str ".yaml") root
      [".yaml"] e rfl hrt
    rw [hL, hT]
    exact ⟨fun h => absurd h (by simp), fun h => absurd h (by simp)⟩
  | ok ents =>
    have hL : walkLegacy start root = LegacyResult.ok (ents.foldl
        (fun list d => if cppExtension d.name == ".yaml" then list ++ [d.path] else list)
        []) := by
      rw [walkLegacy, hrt]
    have hT : walkTame start (PyObj.str ".yaml") root = Except.ok (ents.foldl
        (fun list d => if matchesAny [".yaml"] d.name then list ++ [d.path] else list)
        []) := by
      rw [walkTame]
      show (rootTraverse start root).bind _ = _
      rw [hrt]
      rfl
    rw [hL, hT]
    simp only [LegacyResult.ok.injEq, Except.ok.injEq]
    exact Iff.rfl

/-- C8: `walk` filters solely by exact string equality between the entry
name's extension (with its leading dot) and an element of the extension
set, never by entry kind; in particular a directory whose name carries a
matching extension is included. -/
theorem walk_filters_by_extension_not_kind (start : String) (args : PyObj)
    (root : Entry) (exts : List String) (ents : List DirEnt)
    (hargs : parseExtensions args = Except.ok exts)
    (hents : rootTraverse start root = Except.ok ents) :
    ∃ ps, walkTame start args root = Except.ok ps ∧
      (∀ p, p ∈ ps ↔ ∃ d ∈ ents, d.path = p ∧ cppExtension d.name ∈ exts) ∧
      (∀ d ∈ ents, d.isDir = true → cppExtension d.name ∈ exts → d.path ∈ ps) := by
  refine ⟨specDiscover exts ents,
    walkTame_ok start args root exts ents hargs hents, ?_, ?_⟩
  · intro p
    simp only [specDiscover, List.mem_map, List.mem_filter,
      List.contains_eq_any_beq, List.any_eq_true, beq_iff_eq]
    constructor
    · rintro ⟨d, ⟨hd, e, he, hee⟩, hp⟩
      exact ⟨d, hd, hp, hee ▸ he⟩
    · rintro ⟨d, hd, hp, he⟩
      exact ⟨d, ⟨hd, cppExtension d.name, he, rfl⟩, hp⟩
  · intro d hd _ he
    simp only [specDiscover, List.mem_map, List.mem_filter,
      List.contains_eq_any_beq, List.any_eq_true, beq_iff_eq]
    exact ⟨d, ⟨hd, cppExtension d.name, he, rfl⟩, rfl⟩

/-- Witness for C8: a directory named with a matching extension appears
in the returned sequence. -/
theorem walk_filters_by_extension_not_kind_witness :
    parseExtensions (PyObj.str ".yaml") = Except.ok [".yaml"] ∧
    rootTraverse "root" dirExtTree = Except.ok dirExtEnts ∧
    ∃ ps, walkTame "root" (PyObj.str ".yaml") dirExtTree = Except.ok ps ∧
      "root/sub.yaml" ∈ ps := by
  refine ⟨rfl, rfl, ?_⟩
  obtain ⟨ps, hps, _, hdir⟩ := walk_filters_by_extension_not_kind "root"
    (PyObj.str ".yaml") dirExtTree [".yaml"] dirExtEnts rfl rfl
  refine ⟨ps, hps, ?_⟩
  exact hdir ⟨"root/sub.yaml", "sub.yaml", true⟩ (by simp [dirExtEnts]) rfl
    (by decide)

/-- C9: `walk` is all-or-nothing — every invocation either fails with an
error and returns no list, or returns the complete list of matching
paths; it never returns a partial list. -/
theorem walk_all_or_nothing (start : String) (args : PyObj) (root : Entry) :
    (∃ e, walkTame start args root = Except.error e) ∨
    (∃ exts ents, parseExtensions args = Except.ok exts ∧
      rootTraverse start root = Except.ok ents ∧
      walkTame start args root = Except.ok (specDiscover exts ents)) := by
  cases hp : parseExtensions args with
  | error e => exact Or.inl ⟨e, walkTame_parse_error start args root e hp⟩
  | ok exts =>
    cases hrt : rootTraverse start root with
    | error e =>
      exact Or.inl ⟨e, walkTame_traverse_error start args root exts e hp hrt⟩
    | ok ents =>
      exact Or.inr ⟨exts, ents, rfl, rfl,
        walkTame_ok start args root exts ents hp hrt⟩

/-! ## Engine lemmas (spec-modelled index builder and resolver) -/

/-- Two documents collide on the uniqueness invariant: both carry the
same present `uid` and the same `type`. -/
def uidClash (d1 d2 : MetadataDocument) : Prop :=
  ∃ u, d1.uid = some u ∧ d2.uid = some u ∧ d1.type = d2.type

theorem insertDoc_error_of_dup (idx : Index) (d : MetadataDocument)
    (u p : String) (hu : d.uid = some u)
    (hl : lookupTypeUid idx d.type u = some p) :
    insertDoc idx d = Except.error (EngineError.duplicateUid p d.path) := by
  simp only [insertDoc, hu, hl]

theorem insertDoc_ok_byTypeUid (idx idx' : Index) (d : MetadataDocument)
    (h : insertDoc idx d = Except.ok idx') :
    (d.uid = none ∧ idx'.byTypeUid = idx.byTypeUid) ∨
    (∃ u, d.uid = some u ∧ lookupTypeUid idx d.type u = none ∧
      idx'.byTypeUid = idx.byTypeUid ++ [((d.type, u), d.path)]) := by
  rw [insertDoc] at h
  cases hu : d.uid with
  | none =>
    simp only [hu] at h
    have hidx := (Except.ok.injEq _ _).mp h
    exact Or.inl ⟨rfl, by rw [← hidx]⟩
  | some u =>
    simp only [hu] at h
    cases hlu : lookupTypeUid idx d.type u with
    | some q => simp only [hlu] at h; exact absurd h (by simp)
    | none =>
      simp only [hlu] at h
      have hidx := (Except.ok.injEq _ _).mp h
      exact Or.inr ⟨u, rfl, hlu, by rw [← hidx]⟩

theorem insertDoc_ok_mono (idx idx' : Index) (d : MetadataDocument)
    (t u p : String) (h : insertDoc idx d = Except.ok idx')
    (hl : lookupTypeUid idx t u = some p) :
    lookupTypeUid idx' t u = some p := by
  rw [lookupTypeUid] at hl
  obtain ⟨q, hq, hq2⟩ : ∃ q, (idx.byTypeUid.find? fun e => e.1 = (t, u)) = some q
      ∧ q.2 = p := by
    cases hf : idx.byTypeUid.find? fun e => e.1 = (t, u) with
    | none => rw [hf] at hl; exact absurd hl (by simp)
    | some q =>
      rw [hf] at hl
      exact ⟨q, rfl, by simpa using hl⟩
  rcases insertDoc_ok_byTypeUid idx idx' d h with ⟨_, heq⟩ | ⟨u', _, _, heq⟩ <;>
    · rw [lookupTypeUid, heq]
      first
      | (rw [hq]; simp [hq2])
      | (rw [List.find?_append, hq]; simp [hq2])

theorem insertDoc_ok_self (idx idx' : Index) (d : MetadataDocument)
    (u : String) (hu : d.uid = some u) (h : insertDoc idx d = Except.ok idx') :
    lookupTypeUid idx' d.type u = some d.path := by
  rcases insertDoc_ok_byTypeUid idx idx' d h with ⟨hn, _⟩ | ⟨u', hu', hlu, heq⟩
  · rw [hu] at hn; exact absurd hn (by simp)
  · have huu : u' = u := by rw [hu] at hu'; exact (Option.some_inj.mp hu').symm
    rw [huu] at hlu heq
    have hfn : (idx.byTypeUid.find? fun e => e.1 = (d.type, u)) = none := by
      rw [lookupTypeUid] at hlu
      exact Option.map_eq_none'.mp hlu
    rw [lookupTypeUid, heq, List.find?_append, hfn]
    simp

theorem buildIndexFrom_cons (idx res : Index) (d : MetadataDocument)
    (rest : List MetadataDocument)
    (h : buildIndexFrom idx (d :: rest) = Except.ok res) :
    ∃ idx', insertDoc idx d = Except.ok idx' ∧
      buildIndexFrom idx' rest = Except.ok res := by
  rw [buildIndexFrom, List.foldlM_cons] at h
  cases hins : insertDoc idx d with
  | error e =>
    rw [hins] at h
    exact absurd h (by simp [Bind.bind, Except.bind])
  | ok idx' =>
    rw [hins] at h
    exact ⟨idx', rfl, h⟩

theorem buildIndexFrom_key_conflict (t u p : String) (docs : List MetadataDocument) :
    ∀ (idx res : Index), lookupTypeUid idx t u = some p →
      ∀ d ∈ docs, d.type = t → d.uid = some u →
      buildIndexFrom idx docs ≠ Except.ok res := by
  induction docs with
  | nil => intro idx res hl d hd; exact absurd hd (List.not_mem_nil d)
  | cons d0 rest ih =>
    intro idx res hl d hd ht hu hbuild
    obtain ⟨idx', hins, hrest⟩ := buildIndexFrom_cons idx res d0 rest hbuild
    by_cases hc : d0.type = t ∧ d0.uid = some u
    · have herr := insertDoc_error_of_dup idx d0 u p hc.2 (by rw [hc.1]; exact hl)
      rw [herr] at hins
      exact Except.noConfusion hins
    · have hl' := insertDoc_ok_mono idx idx' d0 t u p hins hl
      rcases List.mem_cons.mp hd with hd0 | hdrest
      · exact hc ⟨hd0 ▸ ht, hd0 ▸ hu⟩
      · exact ih idx' res hl' d hdrest ht hu hrest

theorem buildIndexFrom_pairwise (docs : List MetadataDocument) :
    ∀ (idx res : Index), buildIndexFrom idx docs = Except.ok res →
      docs.Pairwise fun d1 d2 => ¬ uidClash d1 d2 := by
  induction docs with
  | nil => intro idx res _; exact List.Pairwise.nil
  | cons d0 rest ih =>
    intro idx res h
    obtain ⟨idx', hins, hrest⟩ := buildIndexFrom_cons idx res d0 rest h
    refine List.Pairwise.cons ?_ (ih idx' res hrest)
    rintro d2 hd2 ⟨u, hu0, hu2, htype⟩
    have hself := insertDoc_ok_self idx idx' d0 u hu0 hins
    exact buildIndexFrom_key_conflict d0.type u d0.path rest idx' res hself
      d2 hd2 htype.symm hu2 hrest


/-! ## C5 and C6: spec-modelled index claims -/

/-- C5: no two documents indexed together share a `(type, uid)` pair:
a successful build implies the input documents are pairwise clash-free,
and inserting a document whose `(type, uid)` is already present fails
with `DuplicateUidError` naming both conflicting paths — the engine never
silently picks one. -/
theorem index_uid_uniqueness :
    (∀ (docs : List MetadataDocument) (idx : Index),
      buildIndex docs = Except.ok idx →
      docs.Pairwise fun d1 d2 => ¬ uidClash d1 d2) ∧
    (∀ (idx : Index) (d : MetadataDocument) (u p : String),
      d.uid = some u → lookupTypeUid idx d.type u = some p →
      insertDoc idx d = Except.error (EngineError.duplicateUid p d.path)) :=
  ⟨fun docs idx h => buildIndexFrom_pairwise docs emptyIndex idx h,
   fun idx d u p hu hl => insertDoc_error_of_dup idx d u p hu hl⟩

def docA : MetadataDocument := ⟨"a.yaml", "plasmid", some "GFP", some "p001"⟩

def docB : MetadataDocument := ⟨"b.yaml", "plasmid", some "RFP", some "p001"⟩

def docC : MetadataDocument := ⟨"c.yaml", "plasmid", some "GFP", some "p002"⟩

def idxA : Index :=
  ⟨[(("plasmid", "p001"), "a.yaml")],
   [(("plasmid", "GFP"), "a.yaml")],
   [("a.yaml", "a.yaml")]⟩

def idxAC : Index :=
  ⟨[(("plasmid", "p001"), "a.yaml"), (("plasmid", "p002"), "c.yaml")],
   [(("plasmid", "GFP"), "a.yaml"), (("plasmid", "GFP"), "c.yaml")],
   [("a.yaml", "a.yaml"), ("c.yaml", "c.yaml")]⟩

/-- Witness for C5: two distinct uids build fine and are clash-free;
re-inserting uid `p001` fails naming `a.yaml` and `b.yaml`. -/
theorem index_uid_uniqueness_witness :
    buildIndex [docA, docC] = Except.ok idxAC ∧
    ([docA, docC].Pairwise fun d1 d2 => ¬ uidClash d1 d2) ∧
    docB.uid = some "p001" ∧
    lookupTypeUid idxA docB.type "p001" = some "a.yaml" ∧
    insertDoc idxA docB =
      Except.error (EngineError.duplicateUid "a.yaml" "b.yaml") :=
  ⟨rfl, index_uid_uniqueness.1 [docA, docC] idxAC rfl, rfl, rfl,
   index_uid_uniqueness.2 idxA docB "p001" "a.yaml" rfl rfl⟩

/-- The `byTypeName` entries a single document contributes. -/
def nameEntriesOf (d : MetadataDocument) : List ((String × String) × String) :=
  match d.name with
  | some n => [((d.type, n), d.path)]
  | none => []

/-- The documents of `docs` with type `t` and name `n`, in input order —
the candidates a `ByTypeName(t,n)` link refers to. -/
def nameCandidates (docs : List MetadataDocument) (t n : String) : List String :=
  (docs.filter fun d => d.type = t ∧ d.name = some n).map MetadataDocument.path

theorem insertDoc_ok_byTypeName (idx idx' : Index) (d : MetadataDocument)
    (h : insertDoc idx d = Except.ok idx') :
    idx'.byTypeName = idx.byTypeName ++ nameEntriesOf d := by
  rw [insertDoc] at h
  cases hu : d.uid with
  | none =>
    simp only [hu] at h
    have hidx := (Except.ok.injEq _ _).mp h
    rw [← hidx]
    cases hn : d.name with
    | some n => simp [nameEntriesOf, hn]
    | none => simp [nameEntriesOf, hn]
  | some u =>
    simp only [hu] at h
    cases hlu : lookupTypeUid idx d.type u with
    | some q => simp only [hlu] at h; exact absurd h (by simp)
    | none =>
      simp only [hlu] at h
      have hidx := (Except.ok.injEq _ _).mp h
      rw [← hidx]
      cases hn : d.name with
      | some n => simp [nameEntriesOf, hn]
      | none => simp [nameEntriesOf, hn]

theorem buildIndexFrom_byTypeName (docs : List MetadataDocument) :
    ∀ (idx res : Index), buildIndexFrom idx docs = Except.ok res →
      res.byTypeName = idx.byTypeName ++ docs.flatMap nameEntriesOf := by
  induction docs with
  | nil =>
    intro idx res h
    have h' : Except.ok (ε := EngineError) idx = Except.ok res := by
      rw [buildIndexFrom, List.foldlM_nil] at h
      exact h
    have := (Except.ok.injEq _ _).mp h'
    rw [← this]
    simp
  | cons d0 rest ih =>
    intro idx res h
    obtain ⟨idx', hins, hrest⟩ := buildIndexFrom_cons idx res d0 rest h
    have h1 := insertDoc_ok_byTypeName idx idx' d0 hins
    have h2 := ih idx' res hrest
    rw [h2, h1, List.flatMap_cons, List.append_assoc]

theorem flatMap_nameEntries_filter (t n : String) (docs : List MetadataDocument) :
    ((docs.flatMap nameEntriesOf).filter fun e => e.1 = (t, n)).map Prod.snd
      = nameCandidates docs t n := by
  induction docs with
  | nil => rfl
  | cons d rest ih =>
    rw [List.flatMap_cons, List.filter_append, List.map_append, ih]
    cases hn : d.name with
    | none =>
      have h1 : List.map Prod.snd
          (List.filter (fun e => decide (e.1 = (t, n))) (nameEntriesOf d)) = [] := by
        simp [nameEntriesOf, hn]
      have h2 : nameCandidates (d :: rest) t n = nameCandidates rest t n := by
        simp [nameCandidates, List.filter_cons, hn]
      rw [h1, h2, List.nil_append]
    | some m =>
      by_cases hc : d.type = t ∧ m = n
      · have h1 : List.map Prod.snd
            (List.filter (fun e => decide (e.1 = (t, n))) (nameEntriesOf d)) =
            [d.path] := by
          simp [nameEntriesOf, hn, hc.1, hc.2]
        have h2 : nameCandidates (d :: rest) t n =
            d.path :: nameCandidates rest t n := by
          simp [nameCandidates, List.filter_cons, hn, hc.1, hc.2]
        rw [h1, h2]
        rfl
      · have h1 : List.map Prod.snd
            (List.filter (fun e => decide (e.1 = (t, n))) (nameEntriesOf d)) = [] := by
          have hk : ¬((d.type, m) = (t, n)) := by
            intro hx
            rw [Prod.mk.injEq] at hx
            exact hc ⟨hx.1, hx.2⟩
          simp [nameEntriesOf, hn, hk]
        have h2 : nameCandidates (d :: rest) t n = nameCandidates rest t n := by
          have hc' : ¬(d.type = t ∧ d.name = some n) := by
            rw [hn]
            intro hx
            exact hc ⟨hx.1, Option.some_inj.mp hx.2⟩
          simp [nameCandidates, List.filter_cons, hc']
        rw [h1, h2, List.nil_append]

theorem lookupTypeName_build (docs : List MetadataDocument) (idx : Index)
    (h : buildIndex docs = Except.ok idx) (t n : String) :
    lookupTypeName idx t n = nameCandidates docs t n := by
  have hbt := buildIndexFrom_byTypeName docs emptyIndex idx h
  rw [lookupTypeName, hbt]
  have : emptyIndex.byTypeName = [] := rfl
  rw [this, List.nil_append]
  exact flatMap_nameEntries_filter t n docs

/-- C6: resolving a `ByTypeName(t,n)` link against an index built from
`docs`: exactly one document of type `t` named `n` resolves to it; none
yields `UnresolvedLinkError`; two or more yield `AmbiguousLinkError`
listing all candidates — resolution never picks an arbitrary one. -/
theorem byTypeName_resolution (docs : List MetadataDocument) (idx : Index)
    (t n : String) (h : buildIndex docs = Except.ok idx) :
    (∀ p, nameCandidates docs t n = [p] →
      resolveByTypeName idx t n = Except.ok p) ∧
    (nameCandidates docs t n = [] →
      resolveByTypeName idx t n = Except.error EngineError.unresolvedLink) ∧
    (2 ≤ (nameCandidates docs t n).length →
      resolveByTypeName idx t n =
        Except.error (EngineError.ambiguousLink (nameCandidates docs t n))) := by
  have hl := lookupTypeName_build docs idx h t n
  refine ⟨?_, ?_, ?_⟩
  · intro p hc
    rw [resolveByTypeName, hl, hc]
  · intro hc
    rw [resolveByTypeName, hl, hc]
  · intro hlen
    rw [resolveByTypeName, hl]
    cases hc : nameCandidates docs t n with
    | nil => rw [hc] at hlen; exact absurd hlen (by simp)
    | cons a rest =>
      cases rest with
      | nil => rw [hc] at hlen; exact absurd hlen (by simp)
      | cons b rest2 => rfl

def docD : MetadataDocument := ⟨"a.yaml", "plasmid", some "GFP", none⟩

def docE : MetadataDocument := ⟨"b.yaml", "plasmid", some "GFP", none⟩

def idxD : Index :=
  ⟨[], [(("plasmid", "GFP"), "a.yaml")], [("a.yaml", "a.yaml")]⟩

def idxDE : Index :=
  ⟨[],
   [(("plasmid", "GFP"), "a.yaml"), (("plasmid", "GFP"), "b.yaml")],
   [("a.yaml", "a.yaml"), ("b.yaml", "b.yaml")]⟩

/-- Witness for C6: one match resolves, zero matches are unresolved, two
matches are ambiguous with both candidates listed. -/
theorem byTypeName_resolution_witness :
    buildIndex [docD] = Except.ok idxD ∧
    resolveByTypeName idxD "plasmid" "GFP" = Except.ok "a.yaml" ∧
    resolveByTypeName idxD "plasmid" "RFP" =
      Except.error EngineError.unresolvedLink ∧
    buildIndex [docD, docE] = Except.ok idxDE ∧
    resolveByTypeName idxDE "plasmid" "GFP" =
      Except.error (EngineError.ambiguousLink ["a.yaml", "b.yaml"]) := by
  refine ⟨rfl, ?_, ?_, rfl, ?_⟩
  · exact (byTypeName_resolution [docD] idxD "plasmid" "GFP" rfl).1 "a.yaml" rfl
  · exact (byTypeName_resolution [docD] idxD "plasmid" "RFP" rfl).2.1 rfl
  · exact (byTypeName_resolution [docD, docE] idxDE "plasmid" "GFP" rfl).2.2
      (by decide)

end Tame
